import Mathlib

/-!
Shallow embedding of the vitalflow query-routing and trend-analytics core
(src/plannerAgent.mts, src/state.mts, src/trend.mts, src/metrics.mts,
src/summarizer.mts), together with theorems settling the frozen claims.

Modelling conventions, chosen once and used throughout:
* JavaScript numbers are modelled as rationals; non-finite numbers (NaN,
  Infinity) get a dedicated constructor. Float rounding is not modelled:
  every arithmetic expression is translated term-for-term.
* Timestamps are epoch milliseconds (an integer). `Date` parsing of a
  string is a host function and enters as an explicit parameter
  `parseDate : String -> Option Int` (`none` = invalid date). `toISOString`
  followed by re-parsing is the identity on epoch milliseconds, and
  `localeCompare` on the fixed-width ISO strings produced by `toISOString`
  orders exactly like the underlying milliseconds, so points carry the
  integer timestamp directly.
* The host timezone enters as `off : Int`, the minutes east of UTC, because
  `Date.prototype.setMinutes` works in host-local time.
* A JavaScript object field that may be missing is `Option`; where the code
  distinguishes a key that is present with value `undefined` from an absent
  key (object spread does), the field is `Option (Option _)`.
* `Array.prototype.sort` is a stable comparison sort; it is modelled by a
  stable insertion sort parameterised by the strict part of the comparator.
-/

namespace VitalFlow

/-! ### JS string helpers -/

/-- Does the character list start with the pattern? (helper for `includes`). -/
def listStartsWith [DecidableEq α] : List α → List α → Bool
  | _, [] => true
  | [], _ :: _ => false
  | a :: as, b :: bs => a = b && listStartsWith as bs

/-- Does the pattern occur as a contiguous sublist? (helper for `includes`). -/
def containsSub [DecidableEq α] : List α → List α → Bool
  | [], pat => pat.isEmpty
  | a :: rest, pat => listStartsWith (a :: rest) pat || containsSub rest pat

/-- `String.prototype.includes`. -/
def strIncludes (s pat : String) : Bool := containsSub s.data pat.data

/-- `String.prototype.toLowerCase`, modelled character-wise. -/
def jsToLower (s : String) : String := ⟨s.data.map Char.toLower⟩

/-- `Array.prototype.join(sep)`. -/
def joinSep (sep : String) : List String → String
  | [] => ""
  | [x] => x
  | x :: y :: xs => x ++ sep ++ joinSep sep (y :: xs)

/-- `Array.prototype.join("\n")`, used for assembling multi-line output. -/
def joinNL (l : List String) : String := joinSep "\n" l

/-! ### JS stable sort

`jsSortLt ltB l` models `l.sort(cmp)` where `ltB a b` is the Boolean
`cmp(a,b) < 0`.  The insertion is performed from the right (`foldr`), and an
element is inserted after every element that is strictly before it, which is
exactly the stable order produced by `Array.prototype.sort` for a consistent
comparator. -/

def jsInsert (ltB : α → α → Bool) (a : α) : List α → List α
  | [] => [a]
  | b :: l => if ltB b a then b :: jsInsert ltB a l else a :: b :: l

def jsSortLt (ltB : α → α → Bool) (l : List α) : List α :=
  l.foldr (jsInsert ltB) []

/-! ### JS `Map` grouping

The repeated idiom `if (!m.has(k)) m.set(k, []); m.get(k).push(v)` over a
`Map` (which iterates in insertion order) is modelled by an insertion-ordered
association list. -/

def assocFind [DecidableEq κ] : List (κ × β) → κ → Option β
  | [], _ => none
  | (k', b) :: rest, k => if k' = k then some b else assocFind rest k

def insertGroup [DecidableEq κ] : List (κ × List α) → κ → α → List (κ × List α)
  | [], k, a => [(k, [a])]
  | (k', xs) :: rest, k, a =>
      if k' = k then (k', xs ++ [a]) :: rest else (k', xs) :: insertGroup rest k a

def groupBy [DecidableEq κ] (key : α → κ) (l : List α) : List (κ × List α) :=
  l.foldl (fun m x => insertGroup m (key x) x) []

/-! ### JS values -/

/-- A primitive JavaScript value as far as the code inspects it: a finite
number, a non-finite number (NaN or an infinity), a string, a boolean or
`null`.  `undefined` is represented by `Option.none` around `JsVal`. -/
inductive JsVal where
  | num (q : ℚ)
  | nan
  | str (s : String)
  | boolV (b : Bool)
  | nul
deriving DecidableEq

/-- The nullish-coalescing operator `a ?? b` (falls through on both
`undefined` = `none` and `null`). -/
def jsCoalesce (a b : Option JsVal) : Option JsVal :=
  match a with
  | none => b
  | some .nul => b
  | some v => some v

/-- `a ?? b` for optional strings (the sources only feed strings or
undefined here, so there is no separate `null` state to track). -/
def coalesceStr (a b : Option String) : Option String :=
  match a with
  | none => b
  | some s => some s

/-- Rendering a JS value with `String(v ?? "")`, as done for table cells.
Number formatting is modelled by the canonical rational rendering. -/
def jsValCell : Option JsVal → String
  | none => ""
  | some .nul => ""
  | some (.num q) => toString q
  | some .nan => "NaN"
  | some (.str s) => s
  | some (.boolV b) => if b then "true" else "false"

/-- Truthiness of an optional string (`undefined` and `""` are falsy). -/
def truthyS : Option String → Bool
  | none => false
  | some s => !s.isEmpty

/-! ## Router (src/plannerAgent.mts) and Params merge (src/state.mts) -/

/-- The five-way route enum of the planner schema. -/
inductive Route where
  | metrics
  | fetch
  | summarize
  | alert
  | unknown
deriving DecidableEq

/-- The Params record as a JavaScript object: each key is either absent
(outer `none`), present with value `undefined` (`some none`) or present with
a value (`some (some _)`).  The distinction matters because object spread
copies present-but-`undefined` keys. -/
structure Params3 where
  patientId : Option (Option String) := none
  codes : Option (Option (List String)) := none
  since : Option (Option String) := none
  untilP : Option (Option String) := none
  count : Option (Option Int) := none
  maxItems : Option (Option Int) := none
deriving DecidableEq

/-- One field of the object spread `{...prev, ...next}`: a key present in
`next` (even with value `undefined`) wins, an absent key keeps `prev`. -/
def mergeField (prev next : Option α) : Option α :=
  match next with
  | none => prev
  | some v => some v

/-- `{...prev, ...next}` on Params records: the reducer of `State.params`
(src/state.mts line 27) and the planner merge (src/plannerAgent.mts
line 87). -/
def spreadParams (prev next : Params3) : Params3 where
  patientId := mergeField prev.patientId next.patientId
  codes := mergeField prev.codes next.codes
  since := mergeField prev.since next.since
  untilP := mergeField prev.untilP next.untilP
  count := mergeField prev.count next.count
  maxItems := mergeField prev.maxItems next.maxItems

/-- The structured decision returned by the text-generation collaborator
after schema validation (`PlannerSchema`): `params_patch` defaults to `{}`
and `missing` to `[]`, so both are always present. -/
structure PlannerOut where
  route : Route
  rationale : String
  params_patch : Params3
  missing : List String
deriving DecidableEq

/-- The slice of graph state the planner node reads and writes. -/
structure PState where
  query : String
  params : Option Params3 := none
  route : Option Route := none
deriving DecidableEq

/-- `Boolean(s.params?.patientId)`. -/
def hasPid (params : Option Params3) : Bool :=
  match params.bind Params3.patientId with
  | some (some s) => !s.isEmpty
  | _ => false

/-- `Array.isArray(s.params?.codes) && s.params.codes.length > 0`. -/
def hasCodes (params : Option Params3) : Bool :=
  match params.bind Params3.codes with
  | some (some l) => !l.isEmpty
  | _ => false

/-- The pre-check `q.includes("metrics") || q.includes("table")` on the
lower-cased query. -/
def plannerPrecheck (query : String) : Bool :=
  strIncludes (jsToLower query) "metrics" || strIncludes (jsToLower query) "table"

/-- The planner node of `makePlannerNode`.  The single collaborator call
(`llm.invoke` + `parser.parse`) is abstracted as `collab`: `.ok` is a
schema-valid decision, `.error` is any thrown exception (network failure,
malformed or schema-invalid output).  The second component of the result
counts how many times the collaborator was invoked.  The function is total:
no branch re-raises, which embeds the `try`/`catch` that absorbs every
collaborator exception. -/
def plannerRun (collab : Except String PlannerOut) (s : PState) : PState × Nat :=
  if plannerPrecheck s.query then
    ({ s with route := some Route.metrics }, 0)
  else
    match collab with
    | .ok out =>
        let merged := spreadParams (s.params.getD {}) out.params_patch
        let finalRoute :=
          if out.route = Route.fetch ∧ out.missing ≠ [] then Route.unknown else out.route
        ({ s with params := some merged, route := some finalRoute }, 1)
    | .error _ =>
        let fallbackRoute :=
          if hasPid s.params && hasCodes s.params then Route.fetch else Route.summarize
        ({ s with route := some fallbackRoute }, 1)

/-! ## TrendEngine (src/trend.mts) -/

/-- A time-series point: timestamp in epoch milliseconds, numeric value. -/
structure Point where
  t : Int
  v : ℚ
deriving DecidableEq

/-- A per-code series.  `display`/`unit` keep only the value-or-not
distinction (the code never branches on `null` vs `undefined` for them). -/
structure Series where
  code : String
  display : Option String := none
  unit : Option String := none
  points : List Point
deriving DecidableEq

/-- Per-series statistics record. -/
structure Stats where
  code : String
  display : Option String := none
  unit : Option String := none
  latest : Option ℚ := none
  latestAt : Option Int := none
  min : Option ℚ := none
  max : Option ℚ := none
  mean : Option ℚ := none
  median : Option ℚ := none
  std : Option ℚ := none
  slope : Option ℚ := none
  zscore_latest : Option ℚ := none
deriving DecidableEq

inductive Severity where
  | info
  | warn
  | crit
deriving DecidableEq

structure Flag where
  code : String
  severity : Severity
  rule : String
  evidence : String
deriving DecidableEq

/-- The four frequency modes. -/
inductive Freq where
  | auto
  | hourly
  | daily
  | weekly
deriving DecidableEq

/-- `Exclude<Frequency, "auto">`. -/
inductive NAFreq where
  | hourly
  | daily
  | weekly
deriving DecidableEq

def NAFreq.toFreq : NAFreq → Freq
  | .hourly => Freq.hourly
  | .daily => Freq.daily
  | .weekly => Freq.weekly

/-- `const mean = xs => xs.reduce((a,b) => a+b, 0) / xs.length` (only
applied to non-empty lists by the callers). -/
def meanQ (xs : List ℚ) : ℚ := xs.foldl (· + ·) 0 / xs.length

/-- Sample variance with divisor `n-1`, `0` when `n < 2`. -/
def varianceQ (xs : List ℚ) (m : ℚ) : ℚ :=
  if 1 < xs.length then (xs.foldl (fun a b => a + (b - m) ^ 2) 0) / (xs.length - 1 : ℚ)
  else 0

/-- The median routine of src/trend.mts lines 34-38: ascending numeric sort,
middle element for odd length, mean of the two middle elements for even
length. -/
def medianQ (xs : List ℚ) : ℚ :=
  let a := jsSortLt (fun x y => decide (x < y)) xs
  let n := a.length
  let m := n / 2
  if n % 2 = 1 then a.getD m 0 else (a.getD (m - 1) 0 + a.getD m 0) / 2

/-- Ordinary least-squares slope of value against days since the first
point, `0` when fewer than two points or the denominator vanishes. -/
def slopePerDay (pts : List Point) : ℚ :=
  if pts.length < 2 then 0
  else
    let t0 : ℚ := ((pts.headD ⟨0, 0⟩).t : ℚ)
    let xs := pts.map (fun p => ((p.t : ℚ) - t0) / 86400000)
    let ys := pts.map (fun p => p.v)
    let xbar := meanQ xs
    let ybar := meanQ ys
    let num := (xs.zip ys).foldl (fun a xy => a + (xy.1 - xbar) * (xy.2 - ybar)) 0
    let den := xs.foldl (fun a x => a + (x - xbar) ^ 2) 0
    if den = 0 then 0 else num / den

def minQ : List ℚ → ℚ
  | [] => 0
  | x :: rest => rest.foldl min x

def maxQ : List ℚ → ℚ
  | [] => 0
  | x :: rest => rest.foldl max x

/-- `computeStats`.  `Math.sqrt` has no exact rational counterpart and no
claim depends on its value, so the host square root enters as the parameter
`sqrtQ`. -/
def computeStats (sqrtQ : ℚ → ℚ) (s : Series) : Stats :=
  let vals := s.points.map Point.v
  if vals.length = 0 then { code := s.code, display := s.display, unit := s.unit }
  else
    let latest := s.points.getLastD ⟨0, 0⟩
    let m := meanQ vals
    let sd := sqrtQ (varianceQ vals m)
    let med := medianQ vals
    let sl := slopePerDay s.points
    let z := if sd > 0 then (latest.v - m) / sd else 0
    { code := s.code, display := s.display, unit := s.unit,
      latest := some latest.v, latestAt := some latest.t,
      min := some (minQ vals), max := some (maxQ vals),
      mean := some m, median := some med, std := some sd,
      slope := some sl, zscore_latest := some z }

/-- `floorBucket` (src/trend.mts lines 75-89) on epoch milliseconds.
`off` is the host-local offset in minutes east of UTC.

* hourly: `d.setMinutes(0, 0, 0)` zeroes minutes/seconds/millis of the
  HOST-LOCAL hour, i.e. floors `t + off*60000` to a multiple of 3600000 and
  converts back: `t - (t + off*60000) % 3600000`.
* daily: `d.setUTCHours(0,0,0,0)` floors to the UTC day.
* weekly: `d.setUTCDate(d.getUTCDate() - d.getUTCDay())` moves back
  `getUTCDay()` days (the UTC day-of-week, with epoch day 0 = Thursday = 4),
  then `setUTCHours(0,0,0,0)` floors to the UTC day. -/
def floorBucket (off : Int) (f : NAFreq) (t : Int) : Int :=
  match f with
  | .hourly => t - (t + off * 60000) % 3600000
  | .daily => t - t % 86400000
  | .weekly =>
      (t - ((t / 86400000 + 4) % 7) * 86400000) -
        (t - ((t / 86400000 + 4) % 7) * 86400000) % 86400000

/-- The loop body of `bucketSeries` for a resolved (non-auto) frequency:
group points by their floored timestamp in insertion order (a JS `Map`),
take the median of each bucket, and sort the bucket points by timestamp. -/
def bucketPoints (off : Int) (f : NAFreq) (s : Series) : Series :=
  let buckets := groupBy (fun p => floorBucket off f p.t) s.points
  let out := buckets.map (fun kv => Point.mk kv.1 (medianQ (kv.2.map Point.v)))
  { s with points := jsSortLt (fun p q => decide (p.t < q.t)) out }

/-- `bucketSeries`: `auto` means no bucketing up to 200 points, daily
beyond. -/
def bucketSeries (off : Int) (s : Series) (freq : Freq) : Series :=
  match freq with
  | .auto => if s.points.length ≤ 200 then s else bucketPoints off .daily s
  | .hourly => bucketPoints off .hourly s
  | .daily => bucketPoints off .daily s
  | .weekly => bucketPoints off .weekly s

def LOINC_SYS : String := "http://loinc.org|8480-6"
def LOINC_DIA : String := "http://loinc.org|8462-4"
def LOINC_HR : String := "http://loinc.org|8867-4"
def LOINC_SPO2 : String := "http://loinc.org|59408-5"

/-- `new Map(all.map(s => [s.code, s])).get(c)`: for duplicate codes the
later entry wins. -/
def lookupLast (all : List Stats) (c : String) : Option Stats :=
  all.reverse.find? (fun st => decide (st.code = c))

/-- `flagsFromStats`.  Note that the systolic-slope rule sits INSIDE the
`sys?.latest != null && dia?.latest != null` guard in the source. -/
def flagsFromStats (all : List Stats) : List Flag :=
  let sys := lookupLast all LOINC_SYS
  let dia := lookupLast all LOINC_DIA
  let bp : List Flag :=
    match sys, dia with
    | some sy, some di =>
        match sy.latest, di.latest with
        | some sl, some dl =>
            (if sl ≥ 180 ∨ dl ≥ 120 then
               [⟨"BP", .crit, "Hypertensive crisis candidate",
                 "SBP " ++ toString sl ++ " / DBP " ++ toString dl⟩]
             else if sl ≥ 160 ∨ dl ≥ 100 then
               [⟨"BP", .warn, "Very high blood pressure",
                 "SBP " ++ toString sl ++ " / DBP " ++ toString dl⟩]
             else [])
            ++
            (if sy.slope.getD 0 ≥ 2 then
               [⟨LOINC_SYS, .info, "Systolic rising fast (≥ +2 mmHg/day)",
                 "slope " ++ (match sy.slope with | some v => toString v | none => "undefined")⟩]
             else [])
        | _, _ => []
    | _, _ => []
  let hrF : List Flag :=
    match (lookupLast all LOINC_HR).bind Stats.latest with
    | some hv =>
        if hv > 130 ∨ hv < 40 then
          [⟨LOINC_HR, .warn, "HR out of nominal range", "HR " ++ toString hv⟩]
        else []
    | none => []
  let spF : List Flag :=
    match (lookupLast all LOINC_SPO2).bind Stats.latest with
    | some sv =>
        if sv < 90 then [⟨LOINC_SPO2, .crit, "Low SpO₂", toString sv ++ "%"⟩]
        else if sv < 93 then [⟨LOINC_SPO2, .warn, "Borderline SpO₂", toString sv ++ "%"⟩]
        else []
    | none => []
  bp ++ hrF ++ spF

/-! ### Normalization (src/trend.mts lines 206-318) -/

structure CodeObj where
  system : Option String := none
  code : Option String := none
  display : Option String := none
deriving DecidableEq

structure VQ where
  value : Option JsVal := none
  unit : Option String := none
deriving DecidableEq

/-- The simplified observation record shape (`SimpleObs`), with the `status`
field consumed by the metrics view. -/
structure SimpleObs where
  value : Option JsVal := none
  valueQuantity : Option VQ := none
  code : Option CodeObj := none
  loinc : Option String := none
  unit : Option String := none
  whenAt : Option String := none
  effectiveDateTime : Option String := none
  issued : Option String := none
  status : Option String := none
deriving DecidableEq

/-- `numericValue`: `(it?.value) ?? (it?.valueQuantity?.value)`, then
`Number.isFinite` — only a finite number survives. -/
def numericValue (it : SimpleObs) : Option ℚ :=
  match jsCoalesce it.value (it.valueQuantity.bind VQ.value) with
  | some (.num q) => some q
  | _ => none

/-- `isoWhen`: first of `when`/`effectiveDateTime`/`issued`; `!raw` drops
`undefined` and the empty string; an unparseable date yields `null`.  The
result is the parsed instant in epoch milliseconds. -/
def isoWhen (parseDate : String → Option Int) (it : SimpleObs) : Option Int :=
  match coalesceStr it.whenAt (coalesceStr it.effectiveDateTime it.issued) with
  | none => none
  | some s => if s.isEmpty then none else parseDate s

/-- `pickUnit`: `it?.unit ?? it?.valueQuantity?.unit ?? null`. -/
def pickUnit (it : SimpleObs) : Option String :=
  match it.unit with
  | some u => some u
  | none => it.valueQuantity.bind VQ.unit

def LOINC_URI : String := "http://loinc.org"

/-- `stripSystem`: everything after the first `|`, or the whole string. -/
def afterBar : List Char → Option (List Char)
  | [] => none
  | c :: rest => if c = '|' then some rest else afterBar rest

def stripSystem (code : String) : String :=
  match afterBar code.data with
  | none => code
  | some l => ⟨l⟩

/-- `canonicalCode`: prefer `system|code`, else the LOINC shorthand, else
the bare code, else `"unknown"` (all tests are JS truthiness). -/
def canonicalCode (it : SimpleObs) : String :=
  let sys := it.code.bind CodeObj.system
  let cd := it.code.bind CodeObj.code
  if truthyS sys && truthyS cd then sys.getD "" ++ "|" ++ cd.getD ""
  else if truthyS it.loinc then LOINC_URI ++ "|" ++ it.loinc.getD ""
  else if truthyS cd then cd.getD ""
  else "unknown"

/-- `buildRequestedSet`, modelled as a list whose membership is the set
membership (duplicates are irrelevant). -/
def buildRequestedSet (requestedCodes : List String) : List String :=
  requestedCodes.foldl
    (fun acc rc =>
      let acc := acc ++ [rc, stripSystem rc]
      if rc.data.contains '|' then acc else acc ++ [LOINC_URI ++ "|" ++ rc])
    []

/-- Does the record survive normalization? (finite numeric value AND
parseable timestamp). -/
def validObs (parseDate : String → Option Int) (it : SimpleObs) : Bool :=
  (numericValue it).isSome && (isoWhen parseDate it).isSome

/-- `normalizeToSeries`: drop records without a finite numeric value or a
parseable timestamp, group the rest by canonical code in insertion order
(first record of a code supplies display/unit), filter by the requested-code
set when one was supplied, sort points by timestamp and series by code. -/
def normalizeToSeries (parseDate : String → Option Int) (items : List SimpleObs)
    (requestedCodes : List String) : List Series :=
  let valids := items.filter (validObs parseDate)
  let byCode := groupBy canonicalCode valids
  let requested := buildRequestedSet requestedCodes
  let out := byCode.filterMap (fun kv =>
    if requestedCodes ≠ [] ∧
        ¬(requested.contains kv.1 ∨ requested.contains (stripSystem kv.1)) then
      none
    else
      some { code := kv.1,
             display := (kv.2.head?.bind SimpleObs.code).bind CodeObj.display,
             unit := match kv.2.head? with
                     | some it0 => pickUnit it0
                     | none => none,
             points := jsSortLt (fun p q => decide (p.t < q.t))
               (kv.2.map (fun it =>
                 Point.mk ((isoWhen parseDate it).getD 0) ((numericValue it).getD 0))) })
  jsSortLt (fun a b => decide (a.code < b.code)) out

/-! ## Metrics table (src/metrics.mts)

`new Date(w).getTime()` is a host function and enters as the parameter
`timeOf : String → Int` (rows reaching the sort have a truthy `when`; the
NaN result of an unparseable date is outside the model). -/

structure RawRow where
  codeKey : String
  display : Option String := none
  value : Option JsVal := none
  unit : Option String := none
  whenAt : Option String := none
  status : Option String := none
deriving DecidableEq

/-- `normalizeRaw` (always returns a row; the caller filters on `when`). -/
def normalizeRaw (obs : SimpleObs) : RawRow :=
  let c := obs.code
  let system := c.bind CodeObj.system
  let code := c.bind CodeObj.code
  let rhs := if truthyS code then LOINC_URI ++ "|" ++ code.getD "" else "unknown"
  let codeKey :=
    if truthyS system && truthyS code then system.getD "" ++ "|" ++ code.getD "" else rhs
  { codeKey := codeKey, display := c.bind CodeObj.display, value := obs.value,
    unit := obs.unit, whenAt := obs.whenAt, status := obs.status }

/-- `new Date(r.when ?? 0).getTime()`. -/
def rowTime (timeOf : String → Int) (r : RawRow) : Int :=
  match r.whenAt with
  | some w => timeOf w
  | none => 0

/-- Strict part of the per-code comparator `(a,b) => timeOf(b) - timeOf(a)`
(descending time). -/
def rowLtTime (timeOf : String → Int) (a b : RawRow) : Bool :=
  decide (rowTime timeOf b < rowTime timeOf a)

/-- Strict part of the final comparator: code ascending when the `when`
strings are equal, otherwise time descending. -/
def rowLtFinal (timeOf : String → Int) (a b : RawRow) : Bool :=
  if a.whenAt = b.whenAt then decide (a.codeKey < b.codeKey)
  else decide (rowTime timeOf b < rowTime timeOf a)

/-- `pickRecentPerCode`: group by code key in insertion order, sort each
group by time descending, keep the first `limitPerCode` rows of each group,
then sort everything with the final comparator.  There is no cap on the
total number of rows. -/
def pickRecentPerCode (timeOf : String → Int) (rows : List RawRow)
    (limitPerCode : Nat) : List RawRow :=
  let byCode := groupBy RawRow.codeKey rows
  let out := (byCode.map (fun kv => (jsSortLt (rowLtTime timeOf) kv.2).take limitPerCode)).flatten
  jsSortLt (rowLtFinal timeOf) out

def metricHeaders : List String :=
  ["Code", "Display", "Value", "Unit", "When (ISO)", "Status"]

/-- `r.codeKey.replace(/\|/g, "\\|")`. -/
def escPipe (s : String) : String :=
  ⟨s.data.flatMap (fun c => if c = '|' then ['\\', '|'] else [c])⟩

def formatMarkdownTable (rows : List RawRow) (headers : List String) : String :=
  let head := "| " ++ joinSep " | " headers ++ " |"
  let sep := "| " ++ joinSep " | " (headers.map (fun _ => "---")) ++ " |"
  let body := rows.map (fun r =>
    let vals := [escPipe r.codeKey, r.display.getD "", jsValCell r.value,
                 r.unit.getD "", r.whenAt.getD "", r.status.getD ""]
    "| " ++ joinSep " | " vals ++ " |")
  joinNL (head :: sep :: body)

/-- The row list rendered by `metricDetails`: normalize, keep rows with a
truthy `when`, then `pickRecentPerCode(allRows, 25)` — note the 25 lands in
the PER-CODE limit parameter. -/
def metricRows (timeOf : String → Int) (items : List SimpleObs) : List RawRow :=
  let allRows := (items.map normalizeRaw).filter (fun r => truthyS r.whenAt)
  pickRecentPerCode timeOf allRows 25

/-! ## Summarizer (src/summarizer.mts), deterministic path -/

/-- The complete output of one TrendEngine run (`raw.fetchedCount`
flattened). -/
structure Trends where
  series : List Series
  stats : List Stats
  flags : List Flag
  fetchedCount : Nat
deriving DecidableEq

structure ParamsS where
  patientId : Option String := none
  codes : Option (List String) := none
deriving DecidableEq

structure Bundle where
  entry : Option (List SimpleObs) := none
deriving DecidableEq

structure SState where
  params : Option ParamsS := none
  trends : Option Trends := none
  bundle : Option Bundle := none
  summary : Option String := none
  route : Option Route := none
deriving DecidableEq

/-- `metricDetails`: the `metrics` rendering mode. -/
def metricDetails (timeOf : String → Int) (s : SState) : SState :=
  let items := (s.bundle.bind Bundle.entry).getD []
  if items.length = 0 then { s with summary := some "No raw observations available." }
  else { s with summary := some (formatMarkdownTable (metricRows timeOf items) metricHeaders) }

def sevStr : Severity → String
  | .info => "info"
  | .warn => "warn"
  | .crit => "crit"

/-- The first pushed line of `deterministicSummary`. -/
def coverageLine (tr : Trends) : String :=
  "**Data coverage:** " ++ toString (tr.series.foldl (fun a s => a + s.points.length) 0)
    ++ " points across " ++ toString tr.series.length ++ " codes."

/-- The flag block of `deterministicSummary` (or the no-flags line). -/
def flagLines (tr : Trends) : List String :=
  if tr.flags.length ≠ 0 then
    "**Flags:**" ::
      tr.flags.map (fun f => "- [" ++ sevStr f.severity ++ "] " ++ f.rule ++ " — " ++ f.evidence)
  else ["No safety flags detected."]

/-- One latest-value line per stats entry that has a latest value.
Timestamps are rendered as epoch milliseconds in the model. -/
def latestLines (tr : Trends) : List String :=
  tr.stats.filterMap (fun st =>
    match st.latest with
    | some lv =>
        some ("- " ++ st.display.getD st.code ++ ": latest " ++ toString lv
          ++ (match st.unit with
              | some u => if u.isEmpty then "" else " " ++ u
              | none => "")
          ++ " @ " ++ (match st.latestAt with | some a => toString a | none => "unknown"))
    | none => none)

/-- `deterministicSummary`: coverage line, flag lines (or the no-flags
line), then the latest-value lines, joined with newlines. -/
def deterministicSummary (tr : Trends) : String :=
  joinNL (coverageLine tr :: (flagLines tr ++ latestLines tr))

/-- The per-code bucket of `observationsToSeries` (display and unit are
captured from the first record of the code). -/
structure SBucket where
  display : Option String := none
  unit : Option String := none
  points : List Point
deriving DecidableEq

/-- `if (!by.has(code)) by.set(code, {display, unit, points: []});
by.get(code)!.points.push(pt)`. -/
def pushPoint : List (String × SBucket) → String → Option String → Option String →
    Point → List (String × SBucket)
  | [], code, disp, unit, pt => [(code, ⟨disp, unit, [pt]⟩)]
  | (c, b) :: rest, code, disp, unit, pt =>
      if c = code then (c, { b with points := b.points ++ [pt] }) :: rest
      else (c, b) :: pushPoint rest code disp unit pt

/-- The code key of `observationsToSeries`: unlike `canonicalCode` it
prefers the `loinc` shorthand, and the bare-code fallback is nullish
(`?? "unknown"`), not truthiness. -/
def sumCode (it : SimpleObs) : String :=
  let rhs :=
    if truthyS (it.code.bind CodeObj.system) && truthyS (it.code.bind CodeObj.code) then
      (it.code.bind CodeObj.system).getD "" ++ "|" ++ (it.code.bind CodeObj.code).getD ""
    else (it.code.bind CodeObj.code).getD "unknown"
  if truthyS it.loinc then LOINC_URI ++ "|" ++ it.loinc.getD "" else rhs

/-- The item loop of `observationsToSeries`.  A record whose value is not a
finite number, or whose `when`-alias chain is falsy, is skipped; a truthy
but unparseable `when` makes `new Date(when).toISOString()` THROW a
RangeError, modelled as `.error ()`. -/
def obsLoop (parseDate : String → Option Int) :
    List SimpleObs → List (String × SBucket) → Except Unit (List (String × SBucket))
  | [], m => .ok m
  | it :: rest, m =>
      match numericValue it with
      | none => obsLoop parseDate rest m
      | some v =>
          let code := sumCode it
          match coalesceStr it.whenAt (coalesceStr it.effectiveDateTime it.issued) with
          | none => obsLoop parseDate rest m
          | some w =>
              if w.isEmpty then obsLoop parseDate rest m
              else
                match parseDate w with
                | none => .error ()
                | some t =>
                    obsLoop parseDate rest
                      (pushPoint m code ((it.code.bind CodeObj.display))
                        (match it.unit with
                         | some u => some u
                         | none => it.valueQuantity.bind VQ.unit) ⟨t, v⟩)

/-- `createSeries`: sort each bucket by timestamp, filter by the requested
codes (matching the bare key or its LOINC-prefixed form), sort by code. -/
def createSeries (byCode : List (String × SBucket)) (requestedCodes : List String) :
    List Series :=
  let out := byCode.filterMap (fun kv =>
    let code := kv.1
    let keyNoScheme := if code.data.contains '|' then code else LOINC_URI ++ "|" ++ code
    if requestedCodes ≠ [] ∧ ¬(requestedCodes.contains code ∨
        requestedCodes.contains keyNoScheme) then none
    else
      some { code := code, display := kv.2.display, unit := kv.2.unit,
             points := jsSortLt (fun p q => decide (p.t < q.t)) kv.2.points })
  jsSortLt (fun a b => decide (a.code < b.code)) out

def observationsToSeries (parseDate : String → Option Int) (items : List SimpleObs)
    (requestedCodes : List String) : Except Unit (List Series) := do
  let m ← obsLoop parseDate items []
  return createSeries m requestedCodes

def noDataMsg : String := "No observations or trends to summarize."

/-- The summarizer node with `useLLM = false` (the deterministic
OutputComposer path): `metrics` route → table; trends with a non-empty
series list → deterministic trend summary; otherwise raw observations are
normalized, bucketed and summarized; with nothing at all, the explicit
no-data message. -/
def summarizerNode (parseDate : String → Option Int) (sqrtQ : ℚ → ℚ) (off : Int)
    (bucketForFallback : Freq) (timeOf : String → Int) (s : SState) :
    Except Unit SState :=
  if s.route = some Route.metrics then .ok (metricDetails timeOf s)
  else
    match s.trends with
    | some tr =>
        if tr.series.length ≠ 0 then .ok { s with summary := some (deterministicSummary tr) }
        else summarizerRest parseDate sqrtQ off bucketForFallback s
    | none => summarizerRest parseDate sqrtQ off bucketForFallback s
where
  summarizerRest (parseDate : String → Option Int) (sqrtQ : ℚ → ℚ) (off : Int)
      (bucketForFallback : Freq) (s : SState) : Except Unit SState :=
    let items := (s.bundle.bind Bundle.entry).getD []
    if items.length ≠ 0 then do
      let series0 ← observationsToSeries parseDate items
        ((s.params.bind ParamsS.codes).getD [])
      let series := series0.map (fun srs =>
        if srs.points.length ≠ 0 then bucketSeries off srs bucketForFallback else srs)
      let stats := series.map (computeStats sqrtQ)
      let flags := flagsFromStats stats
      return { s with summary := some (deterministicSummary
        ⟨series, stats, flags, items.length⟩) }
    else .ok { s with summary := some noDataMsg }

/-! ## Concrete instances used by counterexamples and witnesses -/

/-- A state whose current params hold a patient id and one code. -/
def plannerWitnessState : PState :=
  { query := "show my blood pressure",
    params := some { patientId := some (some "p-1"),
                     codes := some (some ["http://loinc.org|8480-6"]) } }

/-- A query that contains "table" case-insensitively. -/
def tableQueryState : PState := { query := "Show me the TABLE please" }

/-- Prior params with an explicit patient id. -/
def prevParams : Params3 := { patientId := some (some "p1") }

/-- A patch whose `patientId` key is present but explicitly `undefined`
(as produced, e.g., by `intakeNode` building
`{patientId, codes, ...}` from unmatched parses). -/
def patchParams : Params3 := { patientId := some none }

/-- Three same-UTC-day points with values 120, 130, 125. -/
def exSeries : Series :=
  { code := "http://loinc.org|8480-6",
    points := [⟨0, 120⟩, ⟨3600000, 130⟩, ⟨7200000, 125⟩] }

/-- A date parser for the normalization witness. -/
def parseDateW : String → Option Int := fun w => if w = "d1" then some 100 else none

/-- One record with a finite value and a parseable timestamp, one without a
numeric value, one without a parseable timestamp. -/
def itemsW : List SimpleObs :=
  [{ value := some (.num 5),
     code := some { system := some "http://loinc.org", code := some "8480-6" },
     whenAt := some "d1" },
   { value := some (.str "high"),
     code := some { system := some "http://loinc.org", code := some "8480-6" },
     whenAt := some "d1" },
   { value := some (.num 7),
     code := some { system := some "http://loinc.org", code := some "8480-6" },
     whenAt := some "not-a-date" }]

/-- The single series the witness items normalize to. -/
def seriesW : Series :=
  { code := "http://loinc.org|8480-6", points := [⟨100, 5⟩] }

/-- An observation with a bare code and a timestamp string. -/
def mkObsCW (c w : String) : SimpleObs :=
  { code := some { code := some c }, whenAt := some w }

/-- 26 observations: 13 of each of two codes, distinct timestamp strings. -/
def items26 : List SimpleObs :=
  ((List.range 13).map (fun i => mkObsCW "c1" ("a" ++ toString i))) ++
    ((List.range 13).map (fun i => mkObsCW "c2" ("b" ++ toString i)))

def timeOf0 : String → Int := fun _ => 0

/-- Systolic stats with a fast-rising slope and no diastolic companion. -/
def statsSysOnly : Stats :=
  { code := LOINC_SYS, latest := some 150, latestAt := some 0, slope := some 3 }

/-- Diastolic stats with a latest value, for the witness. -/
def statsDiaW : Stats :=
  { code := LOINC_DIA, latest := some 80, latestAt := some 0, slope := some 0 }

/-- A record set with one record lacking a numeric value. -/
def badObs : SimpleObs := { value := some (.str "high"), whenAt := some "d1" }

/-- Summarizer state: no trends, no route, a bundle holding only `badObs`. -/
def s9 : SState := { bundle := some { entry := some [badObs] } }

/-- The zero-coverage summary the deterministic path produces for `s9`. -/
def covMsg0 : String :=
  "**Data coverage:** 0 points across 0 codes.\nNo safety flags detected."

/-! ## Library lemmas: stable sort -/

theorem jsInsert_perm (ltB : α → α → Bool) (a : α) (l : List α) :
    List.Perm (jsInsert ltB a l) (a :: l) := by
  induction l with
  | nil => simp [jsInsert]
  | cons b bs ih =>
    rw [jsInsert]
    by_cases h : ltB b a
    · rw [if_pos h]
      exact ((ih.cons b).trans (List.Perm.swap a b bs)).symm.symm
    · rw [if_neg h]

theorem jsSortLt_perm (ltB : α → α → Bool) (l : List α) :
    List.Perm (jsSortLt ltB l) l := by
  induction l with
  | nil => simp [jsSortLt]
  | cons x xs ih =>
    have h1 : jsSortLt ltB (x :: xs) = jsInsert ltB x (jsSortLt ltB xs) := rfl
    rw [h1]
    exact (jsInsert_perm ltB x (jsSortLt ltB xs)).trans (ih.cons x)

theorem jsInsert_head (ltB : α → α → Bool) (a : α) (l : List α) :
    (jsInsert ltB a l).head? = some a ∨ (jsInsert ltB a l).head? = l.head? := by
  cases l with
  | nil => left; rfl
  | cons b bs =>
    by_cases h : ltB b a
    · right; simp [jsInsert, h]
    · left; simp [jsInsert, h]

theorem jsInsert_chain {R : α → α → Prop} (ltB : α → α → Bool)
    (hA : ∀ x y, ltB x y = true → R x y) (hB : ∀ x y, ltB y x = false → R x y)
    (a : α) (l : List α) (hl : List.Chain' R l) :
    List.Chain' R (jsInsert ltB a l) := by
  induction l with
  | nil => simp [jsInsert]
  | cons b bs ih =>
    rw [jsInsert]
    by_cases h : ltB b a
    · rw [if_pos h]
      rw [List.chain'_cons']
      refine ⟨?_, ih hl.tail⟩
      intro y hy
      rcases jsInsert_head ltB a bs with hh | hh
      · rw [hh] at hy
        have hya : y = a := by
          have h2 := Option.mem_def.mp hy
          exact (Option.some_inj.mp h2).symm
        rw [hya]
        exact hA b a h
      · rw [hh] at hy
        exact (List.chain'_cons'.mp hl).1 y hy
    · rw [if_neg h]
      have h' : ltB b a = false := by simpa using h
      exact List.chain'_cons.mpr ⟨hB a b h', hl⟩

theorem jsSortLt_chain {R : α → α → Prop} (ltB : α → α → Bool)
    (hA : ∀ x y, ltB x y = true → R x y) (hB : ∀ x y, ltB y x = false → R x y)
    (l : List α) : List.Chain' R (jsSortLt ltB l) := by
  induction l with
  | nil => simp [jsSortLt]
  | cons x xs ih =>
    have h1 : jsSortLt ltB (x :: xs) = jsInsert ltB x (jsSortLt ltB xs) := rfl
    rw [h1]
    exact jsInsert_chain ltB hA hB x _ ih

theorem jsSortLt_of_chain (ltB : α → α → Bool) (l : List α)
    (hl : List.Chain' (fun x y => ltB y x = false) l) : jsSortLt ltB l = l := by
  induction l with
  | nil => rfl
  | cons x xs ih =>
    have h1 : jsSortLt ltB (x :: xs) = jsInsert ltB x (jsSortLt ltB xs) := rfl
    rw [h1, ih hl.tail]
    cases xs with
    | nil => rfl
    | cons y ys =>
      have hxy : ltB y x = false := (List.chain'_cons.mp hl).1
      rw [jsInsert, if_neg (by simp [hxy])]

/-! ## Library lemmas: insertion-ordered grouping -/

theorem assocFind_insertGroup [DecidableEq κ] (m : List (κ × List α)) (k : κ) (a : α)
    (k' : κ) :
    assocFind (insertGroup m k a) k' =
      if k' = k then some ((assocFind m k).getD [] ++ [a]) else assocFind m k' := by
  induction m with
  | nil =>
    by_cases h : k' = k
    · subst h; simp [insertGroup, assocFind]
    · simp only [insertGroup, assocFind]
      rw [if_neg (fun hh => h hh.symm), if_neg h]
  | cons hd tl ih =>
    obtain ⟨k0, xs⟩ := hd
    by_cases h0 : k0 = k
    · subst h0
      simp only [insertGroup, if_pos rfl, assocFind]
      by_cases h1 : k0 = k'
      · subst h1; simp
      · rw [if_neg h1, if_neg (fun hh : k' = k0 => h1 hh.symm), if_neg h1]
    · simp only [insertGroup, if_neg h0, assocFind, if_neg h0]
      by_cases h1 : k0 = k'
      · subst h1
        rw [if_pos rfl, if_neg h0, if_pos rfl]
      · rw [if_neg h1, ih, if_neg h1]

theorem keys_insertGroup [DecidableEq κ] (m : List (κ × List α)) (k : κ) (a : α) :
    (insertGroup m k a).map Prod.fst =
      if (assocFind m k).isSome then m.map Prod.fst else m.map Prod.fst ++ [k] := by
  induction m with
  | nil => simp [insertGroup, assocFind]
  | cons hd tl ih =>
    obtain ⟨k0, xs⟩ := hd
    by_cases h0 : k0 = k
    · subst h0
      simp [insertGroup, assocFind]
    · simp only [insertGroup, if_neg h0, assocFind, List.map_cons, ih]
      by_cases h1 : (assocFind tl k).isSome
      · simp [h1]
      · simp [h1]

theorem assocFind_eq_none_iff [DecidableEq κ] (m : List (κ × β)) (k : κ) :
    assocFind m k = none ↔ k ∉ m.map Prod.fst := by
  induction m with
  | nil => simp [assocFind]
  | cons hd tl ih =>
    obtain ⟨k0, b⟩ := hd
    simp only [assocFind, List.map_cons, List.mem_cons]
    by_cases h0 : k0 = k
    · subst h0; simp
    · rw [if_neg h0, ih]
      constructor
      · intro h hc
        rcases hc with hc | hc
        · exact h0 hc.symm
        · exact h hc
      · intro h
        exact fun hc => h (Or.inr hc)

theorem nodupKeys_insertGroup [DecidableEq κ] (m : List (κ × List α)) (k : κ) (a : α)
    (h : (m.map Prod.fst).Nodup) : ((insertGroup m k a).map Prod.fst).Nodup := by
  rw [keys_insertGroup]
  by_cases hs : (assocFind m k).isSome
  · rw [if_pos hs]; exact h
  · rw [if_neg hs]
    have hk : k ∉ m.map Prod.fst :=
      (assocFind_eq_none_iff m k).mp (Option.not_isSome_iff_eq_none.mp hs)
    simp [List.nodup_append, h, hk]

theorem assocFind_mem [DecidableEq κ] (m : List (κ × β)) (kv : κ × β)
    (hm : kv ∈ m) (hnd : (m.map Prod.fst).Nodup) : assocFind m kv.1 = some kv.2 := by
  induction m with
  | nil => cases hm
  | cons hd tl ih =>
    obtain ⟨k0, b0⟩ := hd
    rcases List.mem_cons.mp hm with h | h
    · subst h; simp [assocFind]
    · have hnd' : k0 ∉ tl.map Prod.fst ∧ (tl.map Prod.fst).Nodup := by
        rw [List.map_cons] at hnd
        exact List.nodup_cons.mp hnd
      have hk : k0 ≠ kv.1 := by
        intro hc
        refine hnd'.1 ?_
        rw [hc]
        exact List.mem_map.mpr ⟨kv, h, rfl⟩
      simp only [assocFind, if_neg hk]
      exact ih h hnd'.2

theorem groupByAux_find [DecidableEq κ] (key : α → κ) (l : List α)
    (m : List (κ × List α)) (k : κ) :
    (assocFind (l.foldl (fun m x => insertGroup m (key x) x) m) k).getD [] =
      (assocFind m k).getD [] ++ l.filter (fun a => decide (key a = k)) := by
  induction l generalizing m with
  | nil => simp
  | cons x xs ih =>
    simp only [List.foldl_cons, List.filter_cons]
    rw [ih]
    by_cases hx : key x = k
    · rw [assocFind_insertGroup, if_pos hx.symm]
      simp [hx, List.append_assoc]
    · rw [assocFind_insertGroup, if_neg (fun hh : k = key x => hx hh.symm)]
      simp [hx]

theorem groupByAux_isSome [DecidableEq κ] (key : α → κ) (l : List α)
    (m : List (κ × List α)) (k : κ) :
    (assocFind (l.foldl (fun m x => insertGroup m (key x) x) m) k).isSome =
      ((assocFind m k).isSome || !(l.filter (fun a => decide (key a = k))).isEmpty) := by
  induction l generalizing m with
  | nil => simp
  | cons x xs ih =>
    simp only [List.foldl_cons, List.filter_cons]
    rw [ih]
    by_cases hx : key x = k
    · rw [assocFind_insertGroup, if_pos hx.symm]
      simp [hx]
    · rw [assocFind_insertGroup, if_neg (fun hh : k = key x => hx hh.symm)]
      simp [hx]

theorem groupByAux_nodup [DecidableEq κ] (key : α → κ) (l : List α)
    (m : List (κ × List α)) (h : (m.map Prod.fst).Nodup) :
    (((l.foldl (fun m x => insertGroup m (key x) x) m)).map Prod.fst).Nodup := by
  induction l generalizing m with
  | nil => exact h
  | cons x xs ih =>
    simp only [List.foldl_cons]
    exact ih _ (nodupKeys_insertGroup _ _ _ h)

theorem groupBy_keys_nodup [DecidableEq κ] (key : α → κ) (l : List α) :
    ((groupBy key l).map Prod.fst).Nodup := by
  simpa [groupBy] using groupByAux_nodup key l [] (by simp)

theorem groupBy_find_getD [DecidableEq κ] (key : α → κ) (l : List α) (k : κ) :
    (assocFind (groupBy key l) k).getD [] = l.filter (fun a => decide (key a = k)) := by
  have h := groupByAux_find key l [] k
  simpa [groupBy, assocFind] using h

theorem groupBy_find_isSome [DecidableEq κ] (key : α → κ) (l : List α) (k : κ) :
    (assocFind (groupBy key l) k).isSome =
      !(l.filter (fun a => decide (key a = k))).isEmpty := by
  have h := groupByAux_isSome key l [] k
  simpa [groupBy, assocFind] using h

theorem groupBy_mem_eq [DecidableEq κ] (key : α → κ) (l : List α)
    (kv : κ × List α) (h : kv ∈ groupBy key l) :
    kv.2 = l.filter (fun a => decide (key a = kv.1)) ∧ kv.2 ≠ [] := by
  have hfind := assocFind_mem _ kv h (groupBy_keys_nodup key l)
  have h1 : kv.2 = l.filter (fun a => decide (key a = kv.1)) := by
    have := groupBy_find_getD key l kv.1
    rw [hfind] at this
    simpa using this
  refine ⟨h1, ?_⟩
  intro hnil
  have h2 := groupBy_find_isSome key l kv.1
  rw [hfind] at h2
  rw [← h1, hnil] at h2
  simp at h2

theorem groupBy_keys_mem [DecidableEq κ] (key : α → κ) (l : List α) (k : κ) :
    k ∈ (groupBy key l).map Prod.fst ↔
      l.filter (fun a => decide (key a = k)) ≠ [] := by
  have hs := groupBy_find_isSome key l k
  rw [← not_iff_not, ← assocFind_eq_none_iff, not_ne_iff, ← Option.not_isSome_iff_eq_none, hs]
  simp [List.isEmpty_iff]

/-! ## Router claims -/

theorem mergeField_eq_of_none {b : Option β} (a : Option β) (h : b = none) :
    mergeField a b = a := by
  rw [h]; rfl

theorem mergeField_eq_of_ne_none {b : Option β} (a : Option β) (h : b ≠ none) :
    mergeField a b = b := by
  cases b with
  | none => exact absurd rfl h
  | some v => rfl

/-- C1: if the single collaborator call of the planner throws (the `.error`
branch of the embedded call result), the planner absorbs the exception — the
function is total and returns a plain state — and routes to `fetch` exactly
when the current params hold a truthy `patientId` and a non-empty `codes`
array, else to `summarize`; the collaborator-invocation count of the run is
1, so no second call is made.  The hypothesis states that the metrics
pre-check did not fire, i.e. that the collaborator call was actually
reached. -/
theorem planner_error_fallback (s : PState) (e : String)
    (hpre : plannerPrecheck s.query = false) :
    plannerRun (.error e) s =
      ({ s with route := some (if hasPid s.params && hasCodes s.params
                               then Route.fetch else Route.summarize) }, 1) := by
  simp [plannerRun, hpre]

theorem planner_error_fallback_witness :
    plannerRun (.error "network failure") plannerWitnessState =
      ({ plannerWitnessState with route := some Route.fetch }, 1) :=
  (planner_error_fallback plannerWitnessState "network failure" (by decide)).trans (by decide)

/-- C8 (claim true): whenever the lower-cased query contains `"metrics"` or
`"table"`, the planner immediately returns the same state with
route=`metrics`, for EVERY collaborator behaviour, and the
collaborator-invocation count is 0. -/
theorem planner_metrics_precheck_routes (collab : Except String PlannerOut) (s : PState)
    (h : strIncludes (jsToLower s.query) "metrics" = true ∨
         strIncludes (jsToLower s.query) "table" = true) :
    plannerRun collab s = ({ s with route := some Route.metrics }, 0) := by
  have hp : plannerPrecheck s.query = true := by
    rcases h with h | h <;> simp [plannerPrecheck, h]
  simp [plannerRun, hp]

theorem planner_metrics_precheck_routes_witness :
    plannerRun (.error "boom") tableQueryState =
      ({ tableQueryState with route := some Route.metrics }, 0) :=
  planner_metrics_precheck_routes (.error "boom") tableQueryState (Or.inr (by decide))

/-- C2 (counterexample): a patch whose `patientId` key is present with value
`undefined` carries no explicit incoming value, yet the spread merge
replaces the prior value `"p1"` by `undefined` instead of keeping it. -/
theorem spread_undefined_overrides :
    patchParams.patientId = some none ∧
    (spreadParams prevParams patchParams).patientId = some none ∧
    (spreadParams prevParams patchParams).patientId ≠ prevParams.patientId := by
  decide

/-- C2 (amended): the spread merge `{...prev, ...next}` is keyed on key
presence, not value presence: for every field, a key absent from the patch
keeps the prior value, and a present key (even one whose value is
`undefined`) always wins. -/
theorem spread_merge_field_semantics (p q : Params3) :
    (q.patientId = none → (spreadParams p q).patientId = p.patientId) ∧
    (q.patientId ≠ none → (spreadParams p q).patientId = q.patientId) ∧
    (q.codes = none → (spreadParams p q).codes = p.codes) ∧
    (q.codes ≠ none → (spreadParams p q).codes = q.codes) ∧
    (q.since = none → (spreadParams p q).since = p.since) ∧
    (q.since ≠ none → (spreadParams p q).since = q.since) ∧
    (q.untilP = none → (spreadParams p q).untilP = p.untilP) ∧
    (q.untilP ≠ none → (spreadParams p q).untilP = q.untilP) ∧
    (q.count = none → (spreadParams p q).count = p.count) ∧
    (q.count ≠ none → (spreadParams p q).count = q.count) ∧
    (q.maxItems = none → (spreadParams p q).maxItems = p.maxItems) ∧
    (q.maxItems ≠ none → (spreadParams p q).maxItems = q.maxItems) :=
  ⟨fun h => mergeField_eq_of_none _ h, fun h => mergeField_eq_of_ne_none _ h,
   fun h => mergeField_eq_of_none _ h, fun h => mergeField_eq_of_ne_none _ h,
   fun h => mergeField_eq_of_none _ h, fun h => mergeField_eq_of_ne_none _ h,
   fun h => mergeField_eq_of_none _ h, fun h => mergeField_eq_of_ne_none _ h,
   fun h => mergeField_eq_of_none _ h, fun h => mergeField_eq_of_ne_none _ h,
   fun h => mergeField_eq_of_none _ h, fun h => mergeField_eq_of_ne_none _ h⟩

theorem spread_merge_field_semantics_witness :
    (spreadParams prevParams patchParams).patientId = patchParams.patientId ∧
    (spreadParams prevParams patchParams).codes = prevParams.codes :=
  ⟨(spread_merge_field_semantics prevParams patchParams).2.1 (by decide),
   (spread_merge_field_semantics prevParams patchParams).2.2.1 (by decide)⟩

/-! ## Bucket-boundary claims -/

theorem floorBucket_idem (off : Int) (f : NAFreq) (t : Int) :
    floorBucket off f (floorBucket off f t) = floorBucket off f t := by
  cases f <;> (simp only [floorBucket]; omega)

/-- C6 (code bug): `floorBucket` floors daily and weekly timestamps to UTC
boundaries exactly as claimed (start of the UTC day, resp. the most recent
Sunday 00:00 UTC), and the hourly branch agrees with the claimed UTC-hour
flooring whenever the host UTC offset is zero — but the hourly branch uses
`setMinutes`, which works in HOST-LOCAL time: on a host at UTC+05:30
(offset 330 minutes), the point 1970-01-01T00:15:00.000Z (t = 900000 ms) is
floored to -1800000 ms = 1969-12-31T23:30:00.000Z, which is not a UTC hour
boundary, contradicting the claim that hourly zeroes out minutes and
seconds of the UTC hour. -/
theorem floorBucket_hourly_local_time :
    (∀ off t : Int, floorBucket off .daily t % 86400000 = 0 ∧
        floorBucket off .daily t ≤ t ∧ t < floorBucket off .daily t + 86400000) ∧
    (∀ off t : Int, floorBucket off .weekly t % 86400000 = 0 ∧
        (floorBucket off .weekly t / 86400000 + 4) % 7 = 0 ∧
        floorBucket off .weekly t ≤ t ∧ t < floorBucket off .weekly t + 7 * 86400000) ∧
    (∀ t : Int, floorBucket 0 .hourly t % 3600000 = 0 ∧
        floorBucket 0 .hourly t ≤ t ∧ t < floorBucket 0 .hourly t + 3600000) ∧
    (floorBucket 330 .hourly 900000 = -1800000 ∧
      ¬ floorBucket 330 .hourly 900000 % 3600000 = 0) := by
  refine ⟨fun off t => ?_, fun off t => ?_, fun t => ?_, by decide⟩ <;>
    (simp only [floorBucket]; omega)

/-! ### Supporting lemmas for bucketing -/

theorem filter_fst_length_of_nodup [DecidableEq κ] (l : List (κ × β)) (k : κ)
    (h : (l.map Prod.fst).Nodup) :
    (l.filter (fun kv => decide (kv.1 = k))).length =
      if k ∈ l.map Prod.fst then 1 else 0 := by
  induction l with
  | nil => simp
  | cons hd tl ih =>
    obtain ⟨k0, b0⟩ := hd
    rw [List.map_cons] at h
    have h' := List.nodup_cons.mp h
    rw [List.filter_cons]
    by_cases hk : k0 = k
    · subst hk
      have htl : (tl.filter (fun kv => decide (kv.1 = k0))).length = 0 := by
        rw [ih h'.2, if_neg h'.1]
      simp [htl]
    · have hmem : k ∈ (k0, b0).1 :: tl.map Prod.fst ↔ k ∈ tl.map Prod.fst := by
        constructor
        · intro hc
          rcases List.mem_cons.mp hc with hc | hc
          · exact absurd hc.symm hk
          · exact hc
        · exact fun hc => List.mem_cons.mpr (Or.inr hc)
      have hcond : decide ((k0, b0).1 = k) = false := by simpa using hk
      simp only [hcond, Bool.false_eq_true, if_false]
      rw [ih h'.2]
      exact (if_congr hmem rfl rfl).symm

theorem insertGroup_notmem [DecidableEq κ] (m : List (κ × List α)) (k : κ) (a : α)
    (h : assocFind m k = none) : insertGroup m k a = m ++ [(k, [a])] := by
  induction m with
  | nil => rfl
  | cons hd tl ih =>
    obtain ⟨k0, xs⟩ := hd
    have hk : k0 ≠ k := by
      intro hc
      rw [assocFind, if_pos hc] at h
      cases h
    rw [assocFind, if_neg hk] at h
    rw [insertGroup, if_neg hk, ih h]
    rfl

theorem assocFind_append [DecidableEq κ] (m1 m2 : List (κ × β)) (k : κ) :
    assocFind (m1 ++ m2) k =
      match assocFind m1 k with
      | some b => some b
      | none => assocFind m2 k := by
  induction m1 with
  | nil => simp [assocFind]
  | cons hd tl ih =>
    obtain ⟨k0, b0⟩ := hd
    by_cases hk : k0 = k
    · simp [assocFind, hk]
    · simp only [List.cons_append, assocFind, if_neg hk]
      exact ih

theorem groupByAux_of_disjoint [DecidableEq κ] (key : α → κ) (l : List α) :
    ∀ m : List (κ × List α), (∀ a ∈ l, assocFind m (key a) = none) →
      (l.map key).Nodup →
      l.foldl (fun m x => insertGroup m (key x) x) m =
        m ++ l.map (fun a => (key a, [a])) := by
  induction l with
  | nil => intro m _ _; simp
  | cons x xs ih =>
    intro m hdisj hnd
    rw [List.map_cons] at hnd
    have hnd' := List.nodup_cons.mp hnd
    simp only [List.foldl_cons]
    rw [insertGroup_notmem m (key x) x (hdisj x (List.mem_cons_self x xs))]
    rw [ih (m ++ [(key x, [x])]) ?_ hnd'.2]
    · simp [List.append_assoc]
    · intro a ha
      rw [assocFind_append]
      rw [hdisj a (List.mem_cons.mpr (Or.inr ha))]
      have hne : key x ≠ key a := by
        intro hc
        exact hnd'.1 (hc ▸ List.mem_map.mpr ⟨a, ha, rfl⟩)
      simp [assocFind, hne]

theorem groupBy_of_nodup_keys [DecidableEq κ] (key : α → κ) (l : List α)
    (h : (l.map key).Nodup) :
    groupBy key l = l.map (fun a => (key a, [a])) := by
  have := groupByAux_of_disjoint key l [] (fun a _ => rfl) h
  simpa [groupBy] using this

theorem medianQ_singleton (x : ℚ) : medianQ [x] = x := by
  simp [medianQ, jsSortLt, jsInsert]

theorem chain_le_t_nodup_strict : ∀ l : List Point,
    List.Chain' (fun p q : Point => p.t ≤ q.t) l → (l.map Point.t).Nodup →
    List.Chain' (fun p q : Point => p.t < q.t) l := by
  intro l
  induction l with
  | nil => intro _ _; simp
  | cons x xs ih =>
    intro hle hnd
    cases xs with
    | nil => simp
    | cons y ys =>
      have h1 : x.t ≤ y.t := (List.chain'_cons.mp hle).1
      have h2 : x.t ≠ y.t := by
        rw [List.map_cons, List.map_cons] at hnd
        have := (List.nodup_cons.mp hnd).1
        intro hc
        exact this (by rw [hc]; exact List.mem_cons_self y.t (ys.map Point.t))
      refine List.chain'_cons.mpr ⟨lt_of_le_of_ne h1 h2, ?_⟩
      refine ih (List.chain'_cons.mp hle).2 ?_
      rw [List.map_cons] at hnd
      exact (List.nodup_cons.mp hnd).2

theorem bucketPoints_points_eq (off : Int) (f : NAFreq) (s : Series) :
    (bucketPoints off f s).points =
      jsSortLt (fun p q => decide (p.t < q.t))
        ((groupBy (fun p => floorBucket off f p.t) s.points).map
          (fun kv => Point.mk kv.1 (medianQ (kv.2.map Point.v)))) := rfl

theorem bucketPoints_points_perm (off : Int) (f : NAFreq) (s : Series) :
    List.Perm (bucketPoints off f s).points
      ((groupBy (fun p => floorBucket off f p.t) s.points).map
        (fun kv => Point.mk kv.1 (medianQ (kv.2.map Point.v)))) := by
  rw [bucketPoints_points_eq]
  exact jsSortLt_perm _ _

theorem bucketPoints_t_nodup (off : Int) (f : NAFreq) (s : Series) :
    ((bucketPoints off f s).points.map Point.t).Nodup := by
  have hperm := (bucketPoints_points_perm off f s).map Point.t
  rw [List.Perm.nodup_iff hperm]
  rw [List.map_map]
  have hmm : (Point.t ∘ fun kv : Int × List ℚ => Point.mk kv.1 (medianQ (kv.2.map id))) =
      Prod.fst := rfl
  show ((groupBy (fun p => floorBucket off f p.t) s.points).map
    (Point.t ∘ fun kv => Point.mk kv.1 (medianQ (kv.2.map Point.v)))).Nodup
  have : (Point.t ∘ fun kv : Int × List Point => Point.mk kv.1 (medianQ ((kv.2.map Point.v)))) =
      (Prod.fst : Int × List Point → Int) := rfl
  rw [this]
  exact groupBy_keys_nodup _ _

theorem bucketPoints_mem_spec (off : Int) (f : NAFreq) (s : Series) (p : Point)
    (hp : p ∈ (bucketPoints off f s).points) :
    p.v = medianQ ((s.points.filter
        (fun q => decide (floorBucket off f q.t = p.t))).map Point.v) ∧
      floorBucket off f p.t = p.t := by
  have hp2 := (bucketPoints_points_perm off f s).mem_iff.mp hp
  obtain ⟨kv, hkv, hgkv⟩ := List.mem_map.mp hp2
  obtain ⟨hfil, hne⟩ := groupBy_mem_eq _ _ kv hkv
  have hpt : p.t = kv.1 := by rw [← hgkv]
  have hpv : p.v = medianQ (kv.2.map Point.v) := by rw [← hgkv]
  constructor
  · rw [hpv, hfil, hpt]
  · obtain ⟨a, ha⟩ := List.exists_mem_of_ne_nil kv.2 hne
    have ha2 : a ∈ s.points.filter (fun q => decide (floorBucket off f q.t = kv.1)) := by
      rw [← hfil]; exact ha
    have ha3 := List.of_mem_filter ha2
    have hka : floorBucket off f a.t = kv.1 := by simpa using ha3
    rw [hpt, ← hka]
    exact floorBucket_idem off f a.t

theorem bucketPoints_chain_lt (off : Int) (f : NAFreq) (s : Series) :
    List.Chain' (fun p q : Point => p.t < q.t) (bucketPoints off f s).points := by
  refine chain_le_t_nodup_strict _ ?_ (bucketPoints_t_nodup off f s)
  rw [bucketPoints_points_eq]
  refine jsSortLt_chain _ ?_ ?_ _
  · intro x y h
    exact le_of_lt (of_decide_eq_true h)
  · intro x y h
    exact le_of_not_lt (of_decide_eq_false h)

theorem bucketPoints_one_per_bucket (off : Int) (f : NAFreq) (s : Series) (k : Int) :
    ((bucketPoints off f s).points.filter (fun p => decide (p.t = k))).length =
      if s.points.filter (fun p => decide (floorBucket off f p.t = k)) = []
      then 0 else 1 := by
  have hperm := (bucketPoints_points_perm off f s).filter (fun p => decide (p.t = k))
  rw [hperm.length_eq]
  rw [List.filter_map]
  rw [List.length_map]
  have hfun : ((fun p : Point => decide (p.t = k)) ∘
      fun kv : Int × List Point => Point.mk kv.1 (medianQ (kv.2.map Point.v))) =
      (fun kv : Int × List Point => decide (kv.1 = k)) := rfl
  rw [hfun]
  rw [filter_fst_length_of_nodup _ k (groupBy_keys_nodup _ _)]
  by_cases hm : k ∈ (groupBy (fun p => floorBucket off f p.t) s.points).map Prod.fst
  · rw [if_pos hm]
    rw [if_neg ((groupBy_keys_mem _ _ _).mp hm)]
  · rw [if_neg hm]
    have := (groupBy_keys_mem (fun p => floorBucket off f p.t) s.points k).not.mp hm
    rw [if_pos (not_ne_iff.mp this)]

theorem bucketSeries_toFreq (off : Int) (s : Series) (f : NAFreq) :
    bucketSeries off s f.toFreq = bucketPoints off f s := by
  cases f <;> rfl

/-- C3: for every series and non-auto frequency, bucketing emits exactly one
point per non-empty bucket, each carrying the median (as computed by the
ascending-sort middle-or-mean rule) of the values whose timestamps floor to
that bucket, with the output strictly ascending by timestamp and the series
identity fields preserved; `auto` returns series of at most 200 points
unchanged and buckets longer series daily; and daily-bucketing three
same-UTC-day points valued 120, 130, 125 yields the single point 125. -/
theorem bucketSeries_bucketing_spec (off : Int) (f : NAFreq) (s : Series) :
    (∀ k : Int,
      ((bucketSeries off s f.toFreq).points.filter (fun p => decide (p.t = k))).length =
        if s.points.filter (fun p => decide (floorBucket off f p.t = k)) = []
        then 0 else 1) ∧
    (∀ p ∈ (bucketSeries off s f.toFreq).points,
      p.v = medianQ ((s.points.filter
        (fun q => decide (floorBucket off f q.t = p.t))).map Point.v)) ∧
    List.Chain' (fun p q : Point => p.t < q.t) (bucketSeries off s f.toFreq).points ∧
    (bucketSeries off s f.toFreq).code = s.code ∧
    (bucketSeries off s f.toFreq).display = s.display ∧
    (bucketSeries off s f.toFreq).unit = s.unit ∧
    (∀ s' : Series, s'.points.length ≤ 200 → bucketSeries off s' Freq.auto = s') ∧
    (∀ s' : Series, 200 < s'.points.length →
      bucketSeries off s' Freq.auto = bucketPoints off .daily s') ∧
    bucketSeries 0 exSeries Freq.daily = { exSeries with points := [⟨0, 125⟩] } := by
  rw [bucketSeries_toFreq]
  refine ⟨fun k => bucketPoints_one_per_bucket off f s k,
    fun p hp => (bucketPoints_mem_spec off f s p hp).1,
    bucketPoints_chain_lt off f s, rfl, rfl, rfl, ?_, ?_, by decide⟩
  · intro s' h
    simp [bucketSeries, h]
  · intro s' h
    have h2 : ¬ s'.points.length ≤ 200 := by omega
    simp [bucketSeries, h2]

theorem bucketSeries_bucketing_spec_witness :
    ((bucketSeries 0 exSeries NAFreq.daily.toFreq).points.filter
        (fun p => decide (p.t = 0))).length =
      (if exSeries.points.filter
          (fun p => decide (floorBucket 0 NAFreq.daily p.t = 0)) = [] then 0 else 1) ∧
    (⟨0, 125⟩ : Point).v = medianQ ((exSeries.points.filter
        (fun q => decide (floorBucket 0 NAFreq.daily q.t = (⟨0, 125⟩ : Point).t))).map
          Point.v) ∧
    bucketSeries 0 exSeries Freq.auto = exSeries :=
  ⟨(bucketSeries_bucketing_spec 0 NAFreq.daily exSeries).1 0,
   (bucketSeries_bucketing_spec 0 NAFreq.daily exSeries).2.1 ⟨0, 125⟩ (by decide),
   (bucketSeries_bucketing_spec 0 NAFreq.daily exSeries).2.2.2.2.2.2.1 exSeries (by decide)⟩

theorem bucketPoints_idem (off : Int) (nf : NAFreq) (s : Series) :
    bucketPoints off nf (bucketPoints off nf s) = bucketPoints off nf s := by
  have hfix : ∀ p ∈ (bucketPoints off nf s).points, floorBucket off nf p.t = p.t :=
    fun p hp => (bucketPoints_mem_spec off nf s p hp).2
  have hnd : (((bucketPoints off nf s).points).map Point.t).Nodup :=
    bucketPoints_t_nodup off nf s
  have hndk : (((bucketPoints off nf s).points).map
      (fun p => floorBucket off nf p.t)).Nodup := by
    rw [List.map_congr_left hfix]
    exact hnd
  have hgrp := groupBy_of_nodup_keys (fun p => floorBucket off nf p.t)
    (bucketPoints off nf s).points hndk
  have hchain := bucketPoints_chain_lt off nf s
  have hsorted : jsSortLt (fun p q : Point => decide (p.t < q.t))
      (bucketPoints off nf s).points = (bucketPoints off nf s).points := by
    refine jsSortLt_of_chain _ _ ?_
    refine hchain.imp ?_
    intro p q h
    exact decide_eq_false (not_lt_of_gt h)
  have hmap : ((bucketPoints off nf s).points.map
        (fun a => ((fun p => floorBucket off nf p.t) a, [a]))).map
        (fun kv => Point.mk kv.1 (medianQ (kv.2.map Point.v))) =
      (bucketPoints off nf s).points := by
    rw [List.map_map]
    refine List.map_congr_left ?_ |>.trans (List.map_id _)
    intro p hp
    show Point.mk (floorBucket off nf p.t) (medianQ [p.v]) = p
    rw [hfix p hp, medianQ_singleton]
  show { bucketPoints off nf s with
      points := jsSortLt (fun p q : Point => decide (p.t < q.t))
        ((groupBy (fun p => floorBucket off nf p.t)
          (bucketPoints off nf s).points).map
            (fun kv => Point.mk kv.1 (medianQ (kv.2.map Point.v)))) } =
    bucketPoints off nf s
  rw [hgrp, hmap, hsorted]

/-- C10: for every series and every fixed non-auto frequency, bucketing is
idempotent — re-bucketing an already bucketed series returns it unchanged,
code, display, unit and point sequence included. -/
theorem bucketSeries_idempotent (off : Int) (s : Series) (f : Freq)
    (hf : f ≠ Freq.auto) :
    bucketSeries off (bucketSeries off s f) f = bucketSeries off s f := by
  cases f with
  | auto => exact absurd rfl hf
  | hourly => exact bucketPoints_idem off .hourly s
  | daily => exact bucketPoints_idem off .daily s
  | weekly => exact bucketPoints_idem off .weekly s

theorem bucketSeries_idempotent_witness :
    bucketSeries 0 (bucketSeries 0 exSeries Freq.daily) Freq.daily =
      bucketSeries 0 exSeries Freq.daily :=
  bucketSeries_idempotent 0 exSeries Freq.daily (by decide)

/-! ## Normalization claim -/

/-- C4: every point of every series produced by TrendEngine normalization
originates in an input record whose numeric value is that point's value and
whose timestamp parses to that point's instant — so records lacking a finite
numeric value or a parseable timestamp contribute no point to any output
series. -/
theorem normalizeToSeries_only_valid_records
    (parseDate : String → Option Int) (items : List SimpleObs)
    (requestedCodes : List String) (s : Series)
    (hs : s ∈ normalizeToSeries parseDate items requestedCodes)
    (p : Point) (hp : p ∈ s.points) :
    ∃ it, it ∈ items ∧ numericValue it = some p.v ∧
      isoWhen parseDate it = some p.t := by
  simp only [normalizeToSeries] at hs
  have hs2 := (jsSortLt_perm (fun a b : Series => decide (a.code < b.code)) _).mem_iff.mp hs
  obtain ⟨kv, hkv, hf⟩ := List.mem_filterMap.mp hs2
  by_cases hC : requestedCodes ≠ [] ∧
      ¬((buildRequestedSet requestedCodes).contains kv.1 ∨
        (buildRequestedSet requestedCodes).contains (stripSystem kv.1))
  · rw [if_pos hC] at hf
    cases hf
  · rw [if_neg hC] at hf
    obtain rfl := Option.some_inj.mp hf
    have hp2 : p ∈ kv.2.map (fun it =>
        Point.mk ((isoWhen parseDate it).getD 0) ((numericValue it).getD 0)) :=
      (jsSortLt_perm (fun p q : Point => decide (p.t < q.t)) _).mem_iff.mp hp
    obtain ⟨it, hit, hmk⟩ := List.mem_map.mp hp2
    have hkv2 := (groupBy_mem_eq canonicalCode _ kv hkv).1
    have hitv : it ∈ items.filter (validObs parseDate) := by
      rw [hkv2] at hit
      exact List.mem_of_mem_filter hit
    have hval : validObs parseDate it = true := List.of_mem_filter hitv
    have hitems : it ∈ items := List.mem_of_mem_filter hitv
    rw [validObs, Bool.and_eq_true] at hval
    obtain ⟨v0, hv0⟩ := Option.isSome_iff_exists.mp hval.1
    obtain ⟨t0, ht0⟩ := Option.isSome_iff_exists.mp hval.2
    refine ⟨it, hitems, ?_, ?_⟩
    · rw [← hmk]
      simp [hv0]
    · rw [← hmk]
      simp [ht0]

theorem normalizeToSeries_only_valid_records_witness :
    ∃ it, it ∈ itemsW ∧ numericValue it = some (Point.mk 100 5).v ∧
      isoWhen parseDateW it = some (Point.mk 100 5).t :=
  normalizeToSeries_only_valid_records parseDateW itemsW [] seriesW (by decide)
    ⟨100, 5⟩ (by decide)

/-! ## Flagging claim -/

/-- C7 (counterexample): a stats list whose systolic entry has
slopePerDay = 3 ≥ 2 but no diastolic companion produces NO flags at all —
in particular no info-severity systolic-rising flag — because the slope rule
is nested inside the guard requiring both systolic and diastolic latest
values. -/
theorem flags_systolic_rising_without_dia :
    statsSysOnly.slope.getD 0 ≥ 2 ∧ flagsFromStats [statsSysOnly] = [] := by
  decide

/-- C7 (amended): when BOTH the systolic and the diastolic series have a
latest value and the systolic slopePerDay is ≥ +2, `flagsFromStats` emits an
info-severity flag with rule label "Systolic rising fast (≥ +2 mmHg/day)"
keyed to the systolic code; without a diastolic latest value the rule does
not fire (see the counterexample). -/
theorem flags_systolic_rising_with_pair (all : List Stats) (sy di : Stats) (sl dl : ℚ)
    (hsy : lookupLast all LOINC_SYS = some sy) (hdi : lookupLast all LOINC_DIA = some di)
    (hsl : sy.latest = some sl) (hdl : di.latest = some dl)
    (hslope : sy.slope.getD 0 ≥ 2) :
    ∃ f ∈ flagsFromStats all, f.severity = Severity.info ∧
      f.rule = "Systolic rising fast (≥ +2 mmHg/day)" ∧ f.code = LOINC_SYS := by
  refine ⟨⟨LOINC_SYS, .info, "Systolic rising fast (≥ +2 mmHg/day)",
    "slope " ++ (match sy.slope with | some v => toString v | none => "undefined")⟩,
    ?_, rfl, rfl, rfl⟩
  simp only [flagsFromStats, hsy, hdi, hsl, hdl]
  refine List.mem_append.mpr (Or.inl ?_)
  refine List.mem_append.mpr (Or.inl ?_)
  refine List.mem_append.mpr (Or.inr ?_)
  rw [if_pos hslope]
  exact List.mem_singleton.mpr rfl

theorem flags_systolic_rising_with_pair_witness :
    ∃ f ∈ flagsFromStats [statsSysOnly, statsDiaW], f.severity = Severity.info ∧
      f.rule = "Systolic rising fast (≥ +2 mmHg/day)" ∧ f.code = LOINC_SYS :=
  flags_systolic_rising_with_pair [statsSysOnly, statsDiaW] statsSysOnly statsDiaW
    150 80 (by decide) (by decide) (by decide) (by decide) (by decide)

/-! ## Metrics-table claim -/

theorem rowTime_eq_of_when (timeOf : String → Int) (x y : RawRow)
    (h : x.whenAt = y.whenAt) : rowTime timeOf x = rowTime timeOf y := by
  rw [rowTime, rowTime, h]

theorem take_flatten_filter_bound (timeOf : String → Int) (n : Nat) :
    ∀ L : List (String × List RawRow),
      (∀ kv ∈ L, ∀ r ∈ kv.2, r.codeKey = kv.1) → (L.map Prod.fst).Nodup →
      ∀ k : String,
        (((L.map (fun kv => (jsSortLt (rowLtTime timeOf) kv.2).take n)).flatten).filter
          (fun r => decide (r.codeKey = k))).length ≤ n := by
  intro L
  induction L with
  | nil => intro _ _ k; simp
  | cons kv L ih =>
    intro hhom hnd k
    rw [List.map_cons] at hnd
    have hnd' := List.nodup_cons.mp hnd
    have hhom' : ∀ kv' ∈ L, ∀ r ∈ kv'.2, r.codeKey = kv'.1 :=
      fun kv' h' => hhom kv' (List.mem_cons.mpr (Or.inr h'))
    simp only [List.map_cons, List.flatten_cons, List.filter_append, List.length_append]
    by_cases hk : kv.1 = k
    · have htail : ((L.map (fun kv =>
          (jsSortLt (rowLtTime timeOf) kv.2).take n)).flatten).filter
          (fun r => decide (r.codeKey = k)) = [] := by
        rw [List.filter_eq_nil_iff]
        intro r hr
        obtain ⟨l', hl', hrl⟩ := List.mem_flatten.mp hr
        obtain ⟨kv', hkv', hkveq⟩ := List.mem_map.mp hl'
        have hrk : r.codeKey = kv'.1 := by
          apply hhom' kv' hkv'
          rw [← hkveq] at hrl
          exact (jsSortLt_perm _ _).mem_iff.mp (List.take_subset _ _ hrl)
        have hmem : kv'.1 ∈ L.map Prod.fst := List.mem_map.mpr ⟨kv', hkv', rfl⟩
        have hne : kv'.1 ≠ k := by
          intro hc
          rw [hc, ← hk] at hmem
          exact hnd'.1 hmem
        simp [hrk, hne]
      rw [htail]
      have hhead : (((jsSortLt (rowLtTime timeOf) kv.2).take n).filter
          (fun r => decide (r.codeKey = k))).length ≤ n :=
        le_trans (List.length_filter_le _ _) (List.length_take_le _ _)
      simpa using hhead
    · have hhead : ((jsSortLt (rowLtTime timeOf) kv.2).take n).filter
          (fun r => decide (r.codeKey = k)) = [] := by
        rw [List.filter_eq_nil_iff]
        intro r hr
        have hrk : r.codeKey = kv.1 := by
          apply hhom kv (List.mem_cons_self kv L)
          exact (jsSortLt_perm _ _).mem_iff.mp (List.take_subset _ _ hr)
        simp [hrk, hk]
      rw [hhead]
      simpa using ih hhom' hnd'.2 k

theorem metricRows_eq (timeOf : String → Int) (items : List SimpleObs) :
    metricRows timeOf items = jsSortLt (rowLtFinal timeOf)
      (((groupBy RawRow.codeKey
          ((items.map normalizeRaw).filter (fun r => truthyS r.whenAt))).map
        (fun kv => (jsSortLt (rowLtTime timeOf) kv.2).take 25)).flatten) := rfl

theorem chain'_pairwise_of_trans {R : α → α → Prop}
    (tr : ∀ a b c, R a b → R b c → R a c) :
    ∀ l : List α, List.Chain' R l → List.Pairwise R l := by
  intro l
  induction l with
  | nil => intro _; exact List.Pairwise.nil
  | cons x l ih =>
    intro h
    have h' := List.chain'_cons'.mp h
    have hp := ih h'.2
    refine List.pairwise_cons.mpr ⟨?_, hp⟩
    intro y hy
    cases l with
    | nil => cases hy
    | cons z zs =>
      have hxz : R x z := h'.1 z rfl
      rcases List.mem_cons.mp hy with hz | hy2
      · rw [hz]; exact hxz
      · exact tr _ _ _ hxz ((List.pairwise_cons.mp hp).1 y hy2)

/-- The groups of `pickRecentPerCode` are homogeneous in their code key. -/
theorem metric_groups_hom (allRows : List RawRow) :
    ∀ kv ∈ groupBy RawRow.codeKey allRows, ∀ r ∈ kv.2, r.codeKey = kv.1 := by
  intro kv hkv r hr
  have h1 := (groupBy_mem_eq RawRow.codeKey _ kv hkv).1
  rw [h1] at hr
  simpa using List.of_mem_filter hr

/-- The rows of code `k` in the flattened per-code selection are exactly the
first `n` entries of that code's group sorted by time descending. -/
theorem flatten_filter_eq_take (timeOf : String → Int) (n : Nat) :
    ∀ L : List (String × List RawRow),
      (∀ kv ∈ L, ∀ r ∈ kv.2, r.codeKey = kv.1) → (L.map Prod.fst).Nodup →
      ∀ k g, assocFind L k = some g →
        (((L.map (fun kv => (jsSortLt (rowLtTime timeOf) kv.2).take n)).flatten).filter
          (fun r => decide (r.codeKey = k))) = (jsSortLt (rowLtTime timeOf) g).take n := by
  intro L
  induction L with
  | nil => intro _ _ k g hfind; cases hfind
  | cons kv L ih =>
    intro hhom hnd k g hfind
    rw [List.map_cons] at hnd
    have hnd' := List.nodup_cons.mp hnd
    have hhom' : ∀ kv' ∈ L, ∀ r ∈ kv'.2, r.codeKey = kv'.1 :=
      fun kv' h' => hhom kv' (List.mem_cons.mpr (Or.inr h'))
    simp only [assocFind] at hfind
    simp only [List.map_cons, List.flatten_cons, List.filter_append]
    by_cases hk : kv.1 = k
    · rw [if_pos hk] at hfind
      have hg : kv.2 = g := Option.some_inj.mp hfind
      have hhead : ((jsSortLt (rowLtTime timeOf) kv.2).take n).filter
          (fun r => decide (r.codeKey = k)) =
          (jsSortLt (rowLtTime timeOf) kv.2).take n := by
        refine List.filter_eq_self.mpr ?_
        intro r hr
        have hrk : r.codeKey = kv.1 := by
          apply hhom kv (List.mem_cons_self kv L)
          exact (jsSortLt_perm _ _).mem_iff.mp (List.take_subset _ _ hr)
        simp [hrk, hk]
      have htail : ((L.map (fun kv =>
          (jsSortLt (rowLtTime timeOf) kv.2).take n)).flatten).filter
          (fun r => decide (r.codeKey = k)) = [] := by
        rw [List.filter_eq_nil_iff]
        intro r hr
        obtain ⟨l', hl', hrl⟩ := List.mem_flatten.mp hr
        obtain ⟨kv', hkv', hkveq⟩ := List.mem_map.mp hl'
        have hrk : r.codeKey = kv'.1 := by
          apply hhom' kv' hkv'
          rw [← hkveq] at hrl
          exact (jsSortLt_perm _ _).mem_iff.mp (List.take_subset _ _ hrl)
        have hmem : kv'.1 ∈ L.map Prod.fst := List.mem_map.mpr ⟨kv', hkv', rfl⟩
        have hne : kv'.1 ≠ k := by
          intro hc
          rw [hc, ← hk] at hmem
          exact hnd'.1 hmem
        simp [hrk, hne]
      rw [hhead, htail, List.append_nil, hg]
    · rw [if_neg hk] at hfind
      have hhead : ((jsSortLt (rowLtTime timeOf) kv.2).take n).filter
          (fun r => decide (r.codeKey = k)) = [] := by
        rw [List.filter_eq_nil_iff]
        intro r hr
        have hrk : r.codeKey = kv.1 := by
          apply hhom kv (List.mem_cons_self kv L)
          exact (jsSortLt_perm _ _).mem_iff.mp (List.take_subset _ _ hr)
        simp [hrk, hk]
      rw [hhead, List.nil_append]
      exact ih hhom' hnd'.2 k g hfind

/-- The final sort of the metrics table: along adjacent rows the timestamp
never increases, and rows with identical timestamp strings are ordered by
code key ascending. -/
theorem metricRows_chain (timeOf : String → Int) (items : List SimpleObs) :
    List.Chain' (fun a b => rowTime timeOf b ≤ rowTime timeOf a ∧
      (a.whenAt = b.whenAt → a.codeKey ≤ b.codeKey)) (metricRows timeOf items) := by
  rw [metricRows_eq]
  refine jsSortLt_chain _ ?_ ?_ _
  · intro x y h
    rw [rowLtFinal] at h
    by_cases hw : x.whenAt = y.whenAt
    · rw [if_pos hw] at h
      exact ⟨le_of_eq (rowTime_eq_of_when timeOf y x hw.symm),
        fun _ => le_of_lt (of_decide_eq_true h)⟩
    · rw [if_neg hw] at h
      exact ⟨le_of_lt (of_decide_eq_true h), fun hc => absurd hc hw⟩
  · intro x y h
    rw [rowLtFinal] at h
    by_cases hw : y.whenAt = x.whenAt
    · rw [if_pos hw] at h
      exact ⟨le_of_eq (rowTime_eq_of_when timeOf y x hw),
        fun _ => le_of_not_lt (of_decide_eq_false h)⟩
    · rw [if_neg hw] at h
      exact ⟨le_of_not_lt (of_decide_eq_false h), fun hc => absurd hc.symm hw⟩

theorem metricRows_count_le (timeOf : String → Int) (items : List SimpleObs)
    (k : String) :
    ((metricRows timeOf items).filter (fun r => decide (r.codeKey = k))).length ≤ 25 := by
  rw [metricRows_eq]
  rw [((jsSortLt_perm (rowLtFinal timeOf) _).filter _).length_eq]
  exact take_flatten_filter_bound timeOf 25 _ (metric_groups_hom _)
    (groupBy_keys_nodup _ _) k

/-- C5 (amended): the metrics table keeps at most 25 MOST-RECENT rows per
canonical code — not 5 — and has NO cap on the total number of rows.  For
every code `k` the surviving input rows of that code split (as a
permutation) into `kept ++ dropped` where the table's rows of code `k` are a
permutation of `kept`, `kept` holds `min 25 (group size)` rows, and every
dropped row's time is ≤ every kept row's time (the recency selection of
`pickRecentPerCode`).  The final output is ordered so that along adjacent
rows the timestamp never increases, with rows having identical timestamp
strings ordered by code key ascending. -/
theorem metric_rows_per_code_cap (timeOf : String → Int) (items : List SimpleObs)
    (k : String) :
    ∃ kept dropped : List RawRow,
      List.Perm (kept ++ dropped)
        (((items.map normalizeRaw).filter (fun r => truthyS r.whenAt)).filter
          (fun r => decide (r.codeKey = k))) ∧
      List.Perm ((metricRows timeOf items).filter (fun r => decide (r.codeKey = k)))
        kept ∧
      kept.length = min 25
        ((((items.map normalizeRaw).filter (fun r => truthyS r.whenAt)).filter
          (fun r => decide (r.codeKey = k))).length) ∧
      (∀ r ∈ kept, ∀ r' ∈ dropped, rowTime timeOf r' ≤ rowTime timeOf r) ∧
      ((metricRows timeOf items).filter (fun r => decide (r.codeKey = k))).length ≤ 25 ∧
      List.Chain' (fun a b => rowTime timeOf b ≤ rowTime timeOf a ∧
        (a.whenAt = b.whenAt → a.codeKey ≤ b.codeKey)) (metricRows timeOf items) := by
  by_cases hg : ((items.map normalizeRaw).filter (fun r => truthyS r.whenAt)).filter
      (fun r => decide (r.codeKey = k)) = []
  · refine ⟨[], [], ?_, ?_, ?_, ?_, metricRows_count_le timeOf items k,
      metricRows_chain timeOf items⟩
    · rw [hg]
      exact List.Perm.refl _
    · have hout : (metricRows timeOf items).filter
          (fun r => decide (r.codeKey = k)) = [] := by
        rw [metricRows_eq]
        have hfl : (((groupBy RawRow.codeKey
            ((items.map normalizeRaw).filter (fun r => truthyS r.whenAt))).map
            (fun kv => (jsSortLt (rowLtTime timeOf) kv.2).take 25)).flatten).filter
            (fun r => decide (r.codeKey = k)) = [] := by
          rw [List.filter_eq_nil_iff]
          intro r hr
          obtain ⟨l', hl', hrl⟩ := List.mem_flatten.mp hr
          obtain ⟨kv', hkv', hkveq⟩ := List.mem_map.mp hl'
          have hrmem : r ∈ kv'.2 := by
            rw [← hkveq] at hrl
            exact (jsSortLt_perm _ _).mem_iff.mp (List.take_subset _ _ hrl)
          rw [(groupBy_mem_eq RawRow.codeKey _ kv' hkv').1] at hrmem
          intro hrk
          have hmem2 : r ∈ ((items.map normalizeRaw).filter
              (fun r => truthyS r.whenAt)).filter (fun r => decide (r.codeKey = k)) :=
            List.mem_filter.mpr ⟨List.mem_of_mem_filter hrmem, hrk⟩
          rw [hg] at hmem2
          cases hmem2
        have hperm := (jsSortLt_perm (rowLtFinal timeOf)
          (((groupBy RawRow.codeKey
              ((items.map normalizeRaw).filter (fun r => truthyS r.whenAt))).map
            (fun kv => (jsSortLt (rowLtTime timeOf) kv.2).take 25)).flatten)).filter
          (fun r => decide (r.codeKey = k))
        rw [hfl] at hperm
        exact hperm.eq_nil
      rw [hout]
    · rw [hg]
      simp
    · intro r hr
      cases hr
  · have hsome := groupBy_find_isSome RawRow.codeKey
      ((items.map normalizeRaw).filter (fun r => truthyS r.whenAt)) k
    have hisSome : (assocFind (groupBy RawRow.codeKey
        ((items.map normalizeRaw).filter (fun r => truthyS r.whenAt))) k).isSome = true := by
      rw [hsome]
      simpa using hg
    obtain ⟨g', hg'⟩ := Option.isSome_iff_exists.mp hisSome
    have hgval : g' = ((items.map normalizeRaw).filter (fun r => truthyS r.whenAt)).filter
        (fun r => decide (r.codeKey = k)) := by
      have hged := groupBy_find_getD RawRow.codeKey
        ((items.map normalizeRaw).filter (fun r => truthyS r.whenAt)) k
      rw [hg'] at hged
      simpa using hged
    rw [hgval] at hg'
    refine ⟨(jsSortLt (rowLtTime timeOf)
        (((items.map normalizeRaw).filter (fun r => truthyS r.whenAt)).filter
          (fun r => decide (r.codeKey = k)))).take 25,
      (jsSortLt (rowLtTime timeOf)
        (((items.map normalizeRaw).filter (fun r => truthyS r.whenAt)).filter
          (fun r => decide (r.codeKey = k)))).drop 25,
      ?_, ?_, ?_, ?_, metricRows_count_le timeOf items k,
      metricRows_chain timeOf items⟩
    · rw [List.take_append_drop]
      exact jsSortLt_perm _ _
    · have hflt := flatten_filter_eq_take timeOf 25
        (groupBy RawRow.codeKey ((items.map normalizeRaw).filter
          (fun r => truthyS r.whenAt)))
        (metric_groups_hom _) (groupBy_keys_nodup _ _) k _ hg'
      have hperm := (jsSortLt_perm (rowLtFinal timeOf)
        (((groupBy RawRow.codeKey
            ((items.map normalizeRaw).filter (fun r => truthyS r.whenAt))).map
          (fun kv => (jsSortLt (rowLtTime timeOf) kv.2).take 25)).flatten)).filter
        (fun r => decide (r.codeKey = k))
      rw [hflt] at hperm
      rw [metricRows_eq]
      exact hperm
    · rw [List.length_take, (jsSortLt_perm _ _).length_eq]
    · have hch : List.Chain' (fun a b => rowTime timeOf b ≤ rowTime timeOf a)
          (jsSortLt (rowLtTime timeOf)
            (((items.map normalizeRaw).filter (fun r => truthyS r.whenAt)).filter
              (fun r => decide (r.codeKey = k)))) := by
        refine jsSortLt_chain _ ?_ ?_ _
        · intro x y h
          rw [rowLtTime] at h
          exact le_of_lt (of_decide_eq_true h)
        · intro x y h
          rw [rowLtTime] at h
          exact le_of_not_lt (of_decide_eq_false h)
      have hpw := chain'_pairwise_of_trans
        (R := fun a b => rowTime timeOf b ≤ rowTime timeOf a)
        (fun _ _ _ hab hbc => le_trans hbc hab) _ hch
      rw [← List.take_append_drop 25 (jsSortLt (rowLtTime timeOf)
        (((items.map normalizeRaw).filter (fun r => truthyS r.whenAt)).filter
          (fun r => decide (r.codeKey = k))))] at hpw
      exact (List.pairwise_append.mp hpw).2.2

theorem metric_rows_per_code_cap_witness :
    ((metricRows timeOf0 items26).filter
      (fun r => decide (r.codeKey = "http://loinc.org|c1"))).length ≤ 25 := by
  obtain ⟨kept, dropped, h1, h2, h3, h4, h5, h6⟩ :=
    metric_rows_per_code_cap timeOf0 items26 "http://loinc.org|c1"
  exact h5

/-- C5 (counterexample): 26 raw observations — 13 each of two codes, all
distinct timestamp strings — render 26 table rows in total (> the claimed
cap of 25) with 13 rows for code `http://loinc.org|c1` (> the claimed 5 per
code): `metricDetails` passes 25 as the PER-CODE limit and applies no total
cap. -/
theorem metric_rows_exceed_claimed_caps :
    (metricRows timeOf0 items26).length = 26 ∧
    ((metricRows timeOf0 items26).filter
      (fun r => decide (r.codeKey = "http://loinc.org|c1"))).length = 13 := by
  decide

/-! ## Summarizer claim -/

theorem joinNL_length_ge (x : String) (xs : List String) :
    x.length ≤ (joinNL (x :: xs)).length := by
  cases xs with
  | nil => simp [joinNL, joinSep]
  | cons y ys =>
    show x.length ≤ (x ++ "\n" ++ joinSep "\n" (y :: ys)).length
    rw [String.length_append, String.length_append]
    omega

theorem joinNL_head_ne_empty (x : String) (xs : List String) (hx : 0 < x.length) :
    joinNL (x :: xs) ≠ "" := by
  have h := joinNL_length_ge x xs
  intro hc
  rw [hc] at h
  have h0 : ("" : String).length = 0 := rfl
  omega

theorem deterministicSummary_ne_empty (tr : Trends) : deterministicSummary tr ≠ "" := by
  apply joinNL_head_ne_empty
  show 0 < (coverageLine tr).length
  rw [coverageLine]
  simp only [String.length_append]
  have h19 : ("**Data coverage:** " : String).length = 19 := rfl
  omega

theorem formatMarkdownTable_ne_empty (rows : List RawRow) (headers : List String) :
    formatMarkdownTable rows headers ≠ "" := by
  apply joinNL_head_ne_empty
  show 0 < ("| " ++ joinSep " | " headers ++ " |").length
  simp only [String.length_append]
  have h2 : ("| " : String).length = 2 := rfl
  omega

theorem metricDetails_summary_ne_empty (timeOf : String → Int) (s : SState) :
    (metricDetails timeOf s).summary ≠ some "" := by
  by_cases h : ((s.bundle.bind Bundle.entry).getD []).length = 0
  · simp only [metricDetails, if_pos h]
    simp
  · simp only [metricDetails, if_neg h]
    intro hc
    exact formatMarkdownTable_ne_empty _ _ (Option.some_inj.mp hc)

theorem summarizerRest_spec (parseDate : String → Option Int) (sqrtQ : ℚ → ℚ)
    (off : Int) (bff : Freq) (s : SState) (res : SState)
    (h : summarizerNode.summarizerRest parseDate sqrtQ off bff s = .ok res) :
    res.summary ≠ some "" ∧
      ((s.bundle.bind Bundle.entry).getD [] = [] → res.summary = some noDataMsg) := by
  by_cases hi : ((s.bundle.bind Bundle.entry).getD []).length = 0
  · simp only [summarizerNode.summarizerRest, if_neg (not_not_intro hi)] at h
    have h3 := Except.ok.inj h
    constructor
    · rw [← h3]
      simp [noDataMsg]
    · intro _
      rw [← h3]
  · simp only [summarizerNode.summarizerRest, if_pos hi] at h
    cases hos : observationsToSeries parseDate ((s.bundle.bind Bundle.entry).getD [])
        ((s.params.bind ParamsS.codes).getD []) with
    | error e =>
        rw [hos] at h
        simp only [bind, Except.bind] at h
        cases h
    | ok series0 =>
        rw [hos] at h
        simp only [bind, Except.bind] at h
        have h3 := Except.ok.inj h
        constructor
        · rw [← h3]
          intro hc
          exact deterministicSummary_ne_empty _ (Option.some_inj.mp hc)
        · intro hempty
          rw [hempty] at hi
          simp at hi

/-- C9 (amended): the deterministic OutputComposer path never returns a
state with an empty summary string (whenever it returns at all — a truthy
but unparseable timestamp makes `toISOString` throw, the `.error` case);
the explicit no-data message is emitted exactly in the branch where there
are no trends with series, no raw records and the route is not `metrics`.
A non-empty record set in which every record lacks a numeric value instead
yields the zero-coverage summary (see the counterexample). -/
theorem summarizer_never_empty (parseDate : String → Option Int) (sqrtQ : ℚ → ℚ)
    (off : Int) (bff : Freq) (timeOf : String → Int) (s res : SState)
    (h : summarizerNode parseDate sqrtQ off bff timeOf s = .ok res) :
    res.summary ≠ some "" ∧
      (s.route ≠ some Route.metrics →
        (∀ tr, s.trends = some tr → tr.series = []) →
        (s.bundle.bind Bundle.entry).getD [] = [] →
        res.summary = some noDataMsg) := by
  by_cases hr : s.route = some Route.metrics
  · simp only [summarizerNode, if_pos hr] at h
    have h3 := Except.ok.inj h
    constructor
    · rw [← h3]
      exact metricDetails_summary_ne_empty timeOf s
    · intro hroute _ _
      exact absurd hr hroute
  · simp only [summarizerNode, if_neg hr] at h
    cases htr : s.trends with
    | some tr =>
        rw [htr] at h
        dsimp only at h
        by_cases hlen : tr.series.length ≠ 0
        · rw [if_pos hlen] at h
          have h3 := Except.ok.inj h
          constructor
          · rw [← h3]
            intro hc
            exact deterministicSummary_ne_empty _ (Option.some_inj.mp hc)
          · intro _ htrs _
            have hser := htrs tr rfl
            rw [hser] at hlen
            simp at hlen
        · rw [if_neg hlen] at h
          have hspec := summarizerRest_spec parseDate sqrtQ off bff s res h
          exact ⟨hspec.1, fun _ _ hb => hspec.2 hb⟩
    | none =>
        rw [htr] at h
        dsimp only at h
        have hspec := summarizerRest_spec parseDate sqrtQ off bff s res h
        exact ⟨hspec.1, fun _ _ hb => hspec.2 hb⟩

/-- C9 (counterexample): with a bundle holding one record that lacks a
numeric value — so the record set yields no valid data at all — the
deterministic path returns the zero-coverage summary
"**Data coverage:** 0 points across 0 codes." + "No safety flags detected.",
which is non-empty but is NOT the explicit no-data message the claim
requires. -/
theorem summarizer_zero_coverage_message :
    summarizerNode (fun _ => none) (fun _ => 0) 0 Freq.auto timeOf0 s9 =
      .ok { s9 with summary := some covMsg0 } ∧
    covMsg0 ≠ noDataMsg ∧ covMsg0 ≠ "" := by
  refine ⟨?_, by decide, by decide⟩
  rfl

theorem summarizer_never_empty_witness :
    ({ s9 with summary := some covMsg0 } : SState).summary ≠ some "" :=
  (summarizer_never_empty (fun _ => none) (fun _ => 0) 0 Freq.auto timeOf0 s9
    { s9 with summary := some covMsg0 } rfl).1

end VitalFlow
